import Mathlib

set_option maxRecDepth 100000

/-!
Verification development for the population-based neural-architecture search
loop of `src/data/domain_results/neural_architecture/fe_nas_fixed_chip.py`
(classes `NASRefinerDomain` and `ForgettingEngineNAS`).

The Python code draws randomness from two `random.Random` objects (one owned
by the domain, one by the engine).  Each is modelled as a deterministic
stream of natural numbers consumed in draw order (`RStream`): every Python
draw (`randint`, `choice`, `randrange`, `sample`, `uniform`, `random`) reads
the next stream value and maps it into the required range.  Floats are
modelled as rationals; list slicing, Python's stable `sorted`, `int()`
truncation and `max(..., key=...)` (first maximum on ties) are modelled
exactly.  Fallible operations (`max` of an empty list, `random.choice` of an
empty list — both raise in Python) return `Option`.
-/

/-- A deterministic stream of raw random draws together with a cursor.
Models the state of one `random.Random` instance: `vals` is the (arbitrary)
sequence of raw draws, `idx` how many draws have been consumed. -/
structure RStream where
  vals : Nat → Nat
  idx : Nat

/-- Consume one raw draw. -/
def RStream.next (s : RStream) : Nat × RStream :=
  (s.vals s.idx, ⟨s.vals, s.idx + 1⟩)

/-- Model of `rng.randint(a, b)` (inclusive bounds, `a ≤ b`): one draw mapped
into `[a, b]`. -/
def randintN (a b : Nat) (s : RStream) : Nat × RStream :=
  let (d, s') := s.next
  (a + d % (b - a + 1), s')

/-- Model of `rng.randrange(n)`: one draw mapped into `[0, n)`. -/
def randrangeN (n : Nat) (s : RStream) : Nat × RStream :=
  let (d, s') := s.next
  (d % n, s')

/-- Model of `rng.choice(l)`: one draw selecting an element.  On the empty
list Python raises `IndexError`; here the selection is `none`. -/
def chooseL {α : Type} (l : List α) (s : RStream) : Option α × RStream :=
  let (d, s') := s.next
  (l[d % l.length]?, s')

/-- Model of `rng.uniform(lo, hi)`: one draw mapped affinely into `[lo, hi]`. -/
def uniformQ (lo hi : ℚ) (s : RStream) : ℚ × RStream :=
  let (d, s') := s.next
  (lo + (((d % 1001 : Nat) : ℚ) / 1000) * (hi - lo), s')

/-- Model of `rng.random()`: one draw mapped into `[0, 1)`. -/
def randomQ (s : RStream) : ℚ × RStream :=
  let (d, s') := s.next
  (((d % 1000 : Nat) : ℚ) / 1000, s')

/-- Model of `rng.sample(range(n), 2)` for `n ≥ 2`: two draws yielding two
distinct indices below `n`. -/
def sample2 (n : Nat) (s : RStream) : (Nat × Nat) × RStream :=
  let (d1, s1) := s.next
  let (d2, s2) := s1.next
  let i := d1 % n
  let j0 := d2 % (n - 1)
  ((i, if j0 < i then j0 else j0 + 1), s2)

/-- The layer-type vocabulary `["CONV3", "CONV5", "POOL", "DROP"]`. -/
inductive Op where
  | CONV3 | CONV5 | POOL | DROP
deriving DecidableEq, BEq

/-- `self.ops` of `NASRefinerDomain`. -/
def opsList : List Op := [Op.CONV3, Op.CONV5, Op.POOL, Op.DROP]

/-- The `params_per_layer` cost table (every vocabulary token is listed, so
the `.get(op, 10000)` default of the Python dict never fires). -/
def opCost : Op → Nat
  | Op.CONV3 => 50000
  | Op.CONV5 => 100000
  | Op.POOL => 1000
  | Op.DROP => 500

/-- `sum(params_per_layer.get(op, 10000) for op in layers)`. -/
def archParams (layers : List Op) : Nat :=
  (layers.map opCost).sum

/-- The `Architecture` dataclass. -/
structure Architecture where
  layers : List Op
  params : Nat
  accuracy : ℚ := 0
  novelty_score : ℚ := 0
  elim_score : ℚ := 0
deriving DecidableEq

/-- `NASRefinerDomain.estimate_performance`, threading the domain RNG.
An empty layer list returns `0.0` without touching the RNG; otherwise one
`uniform(-0.02, 0.02)` noise draw is consumed and the result is clamped into
`[0, 0.98]` by `min(0.98, max(0.0, ...))`. -/
def estimate_performance (arch : Architecture) (s : RStream) : ℚ × RStream :=
  if arch.layers = [] then (0, s)
  else
    let depth_penalty : ℚ := 1 - (arch.layers.length : ℚ) / 20
    let conv_bonus : ℚ :=
      (arch.layers.count Op.CONV3 : ℚ) * (5 / 100) +
      (arch.layers.count Op.CONV5 : ℚ) * (8 / 100)
    let noise : ℚ := (uniformQ (-(2 / 100)) (2 / 100) s).1
    (min (98 / 100) (max 0 (70 / 100 + conv_bonus * depth_penalty + noise)),
      (uniformQ (-(2 / 100)) (2 / 100) s).2)

/-- `NASRefinerDomain.compute_elimination_score` with the fixed weights
`alpha, beta, gamma, delta = -1.0, 0.1, 0.3, -0.1`; `len(set(arch.layers))`
is the number of distinct layer tokens. -/
def compute_elimination_score (target_complexity : Nat) (arch : Architecture)
    (gen : Nat) : ℚ :=
  let fitness := arch.accuracy
  let complexity : ℚ := (arch.params : ℚ) / (target_complexity : ℚ)
  let novelty : ℚ := ((arch.layers.dedup).length : ℚ) / (opsList.length : ℚ)
  let age : ℚ := 0
  ((-1) * fitness + (1 / 10) * complexity + (3 / 10) * novelty + (-(1 / 10)) * age)
    / ((max 1 gen : Nat) : ℚ)

/-- `np.mean` on a rational list. -/
def listMean (l : List ℚ) : ℚ := l.sum / (l.length : ℚ)

/-- `np.percentile(l, 25)` with the default linear interpolation: on the
sorted data `s` of length `n`, position `p = (n-1)/4`, `k = ⌊p⌋`,
`d = p - k`, result `s[k] + d * (s[k+1] - s[k])` (last entry when `k+1`
is out of range, which only happens with `d = 0`). -/
def percentile25 (l : List Nat) : ℚ :=
  let s := l.mergeSort (fun a b => decide (a ≤ b))
  let n := s.length
  let k := (n - 1) / 4
  let d : ℚ := (((n - 1) % 4 : Nat) : ℚ) / 4
  match s[k]?, s[k + 1]? with
  | some xk, some xk1 => (xk : ℚ) + d * ((xk1 : ℚ) - (xk : ℚ))
  | some xk, none => (xk : ℚ)
  | _, _ => 0

/-- `NASRefinerDomain.is_paradoxical`: `False` when either population list is
empty, otherwise fitness strictly below the mean accuracy AND `params`
strictly below the 25th-percentile complexity. -/
def is_paradoxical (arch : Architecture) (pop_accs : List ℚ)
    (pop_sizes : List Nat) : Bool :=
  if pop_accs = [] ∨ pop_sizes = [] then false
  else decide (arch.accuracy < listMean pop_accs ∧
    (arch.params : ℚ) < percentile25 pop_sizes)

/-- Draw `n` layer tokens, each via `rng.choice(self.ops)` in list order. -/
def drawOps : Nat → RStream → List Op × RStream
  | 0, s => ([], s)
  | n + 1, s =>
    let (d, s1) := s.next
    let op := opsList.getD (d % opsList.length) Op.CONV3
    let (rest, s2) := drawOps n s1
    (op :: rest, s2)

/-- `NASRefinerDomain._create_random_arch`: depth `randint(3, 10)`, tokens
from the vocabulary, all draws (including the fitness noise) from the
domain RNG. -/
def domainCreateRandomArch (d : RStream) : Architecture × RStream :=
  let depth := (randintN 3 10 d).1
  let d1 := (randintN 3 10 d).2
  let layers := (drawOps depth d1).1
  let d2 := (drawOps depth d1).2
  let arch0 : Architecture := { layers := layers, params := archParams layers }
  ({ arch0 with accuracy := (estimate_performance arch0 d2).1 },
    (estimate_performance arch0 d2).2)

/-- The (hyper)parameters of `ForgettingEngineNAS.__init__` together with the
domain's `target_complexity`.  The Python constructor stores them without any
validation. -/
structure EngineCfg where
  target_complexity : Nat
  pop_size : Nat
  generations : Nat
  forget_rate : ℚ
  paradox_rate : ℚ
deriving DecidableEq

/-- `keep_count = int(self.pop_size * (1 - self.forget_rate))`.  For
`forget_rate ≤ 1` the product is nonnegative, so Python's toward-zero
truncation coincides with the floor; `Int.toNat` also sends the floors of the
products in `(-1, 0]` arising from `1 < forget_rate < 1 + 1/pop_size` to `0`,
as `int()` does. -/
def keepCount (cfg : EngineCfg) : Nat :=
  (⌊(cfg.pop_size : ℚ) * (1 - cfg.forget_rate)⌋).toNat

/-- `max(1, int(self.paradox_rate * self.pop_size))`, the paradox-buffer
capacity. -/
def paradoxCap (cfg : EngineCfg) : Nat :=
  max 1 (⌊cfg.paradox_rate * (cfg.pop_size : ℚ)⌋).toNat

/-- `ForgettingEngineNAS._create_random_arch`: depth `randint(5, 20)` and
tokens drawn from the engine RNG, fitness noise from the domain RNG. -/
def engineCreateRandomArch (e d : RStream) : Architecture × RStream × RStream :=
  let num_layers := (randintN 5 20 e).1
  let e1 := (randintN 5 20 e).2
  let layers := (drawOps num_layers e1).1
  let e2 := (drawOps num_layers e1).2
  let arch0 : Architecture := { layers := layers, params := archParams layers }
  ({ arch0 with accuracy := (estimate_performance arch0 d).1 }, e2,
    (estimate_performance arch0 d).2)

/-- The structural part of `ForgettingEngineNAS.mutate_arch` on a non-empty
copy of the parent's layers: one of `swap`/`add`/`remove`/`replace` is drawn
(`0`–`3` here, in the list order of the Python `rng.choice` call) and applied
with the same guards as the `if`/`elif` chain — a guarded-out `swap` or
`remove` leaves the layers unchanged, as no branch of the chain fires. -/
def mutateLayers (layers : List Op) (e : RStream) : List Op × RStream :=
  let mt := (randrangeN 4 e).1
  let e1 := (randrangeN 4 e).2
  if mt = 0 then
    if layers.length > 1 then
      let ij := (sample2 layers.length e1).1
      let li := layers.getD ij.1 Op.CONV3
      let lj := layers.getD ij.2 Op.CONV3
      ((layers.set ij.1 lj).set ij.2 li, (sample2 layers.length e1).2)
    else (layers, e1)
  else if mt = 1 then
    let pos := (randrangeN (layers.length + 1) e1).1
    let e' := (randrangeN (layers.length + 1) e1).2
    let tok := opsList.getD ((e'.next).1 % opsList.length) Op.CONV3
    (layers.take pos ++ tok :: layers.drop pos, (e'.next).2)
  else if mt = 2 then
    if layers.length > 3 then
      (layers.eraseIdx (randrangeN layers.length e1).1, (randrangeN layers.length e1).2)
    else (layers, e1)
  else
    let pos := (randrangeN layers.length e1).1
    let e' := (randrangeN layers.length e1).2
    let tok := opsList.getD ((e'.next).1 % opsList.length) Op.CONV3
    (layers.set pos tok, (e'.next).2)

/-- `ForgettingEngineNAS.mutate_arch`.  An empty parent falls back to
`_create_random_arch`; otherwise the layers are mutated via `mutateLayers`
and the child's params and accuracy are recomputed. -/
def mutate_arch (parent : Architecture) (e d : RStream) :
    Architecture × RStream × RStream :=
  if parent.layers = [] then engineCreateRandomArch e d
  else
    let new_layers := (mutateLayers parent.layers e).1
    let child0 : Architecture := { layers := new_layers, params := archParams new_layers }
    ({ child0 with accuracy := (estimate_performance child0 d).1 },
      (mutateLayers parent.layers e).2, (estimate_performance child0 d).2)

/-- The in-place `a.elim_score = compute_elimination_score(a, gen)` pass over
the population. -/
def scoredPop (cfg : EngineCfg) (gen : Nat) (pop : List Architecture) :
    List Architecture :=
  pop.map fun a =>
    { a with elim_score := compute_elimination_score cfg.target_complexity a gen }

/-- `sorted(self.population, key=lambda a: a.elim_score, reverse=True)`:
a stable sort, highest elimination score first. -/
def sortedByElim (pop : List Architecture) : List Architecture :=
  pop.mergeSort (fun a b => decide (b.elim_score ≤ a.elim_score))

/-- `elite = population[:keep_count]` of the score-sorted population. -/
def eliteOf (cfg : EngineCfg) (gen : Nat) (pop : List Architecture) :
    List Architecture :=
  (sortedByElim (scoredPop cfg gen pop)).take (keepCount cfg)

/-- `eliminated = population[keep_count:]` of the score-sorted population. -/
def eliminatedOf (cfg : EngineCfg) (gen : Nat) (pop : List Architecture) :
    List Architecture :=
  (sortedByElim (scoredPop cfg gen pop)).drop (keepCount cfg)

/-- The eliminated members that pass `is_paradoxical` against the whole
(sorted) population's accuracy and params lists. -/
def paradoxCandidatesOf (cfg : EngineCfg) (gen : Nat)
    (pop : List Architecture) : List Architecture :=
  let sorted := sortedByElim (scoredPop cfg gen pop)
  let accs := sorted.map (fun a => a.accuracy)
  let sizes := sorted.map (fun a => a.params)
  (sorted.drop (keepCount cfg)).filter (fun a => is_paradoxical a accs sizes)

/-- `self.paradox_buffer = sorted(paradox_candidates, key=lambda a: a.params)
[:max(1, int(self.paradox_rate * self.pop_size))]`. -/
def bufferOf (cfg : EngineCfg) (gen : Nat) (pop : List Architecture) :
    List Architecture :=
  ((paradoxCandidatesOf cfg gen pop).mergeSort
    (fun a b => decide (a.params ≤ b.params))).take (paradoxCap cfg)

/-- The `while len(population) < self.pop_size` refill loop, unrolled on the
number `n` of members still missing.  Each iteration consumes one
`rng.random()` draw; with probability `< 0.2` and a non-empty buffer a buffer
member is re-admitted unchanged, otherwise an elite parent is chosen and
mutated.  `rng.choice` of an empty elite (Python: `IndexError`) aborts with
`none`. -/
def fill : Nat → List Architecture → List Architecture → List Architecture →
    RStream → RStream → Option (List Architecture × RStream × RStream)
  | 0, _, _, pop, e, d => some (pop, e, d)
  | n + 1, elite, buffer, pop, e, d =>
    let e1 := (randomQ e).2
    if (randomQ e).1 < 1 / 5 ∧ buffer ≠ [] then
      match (chooseL buffer e1).1 with
      | some p => fill n elite buffer (pop ++ [p]) (chooseL buffer e1).2 d
      | none => none
    else
      match (chooseL elite e1).1 with
      | none => none
      | some parent =>
        fill n elite buffer
          (pop ++ [(mutate_arch parent (chooseL elite e1).2 d).1])
          (mutate_arch parent (chooseL elite e1).2 d).2.1
          (mutate_arch parent (chooseL elite e1).2 d).2.2

/-- `max(l, key=lambda a: a.accuracy)`: Python returns the first element
attaining the maximum key, and raises on an empty list (`none` here). -/
def maxByAcc : List Architecture → Option Architecture
  | [] => none
  | a :: rest =>
    match maxByAcc rest with
    | none => some a
    | some b => if b.accuracy > a.accuracy then some b else some a

/-- The state owned by a running `ForgettingEngineNAS`: population, paradox
buffer, best-so-far, and the engine and domain RNG states. -/
structure EngineState where
  population : List Architecture
  paradox_buffer : List Architecture
  best_overall : Architecture
  eRng : RStream
  dRng : RStream

/-- The generation's rebuilt local `population` list: `elite.copy()` refilled
to `pop_size` members.  In the source this list is a local variable of the
loop body — it is used for the `best_overall` update but is never written
back to `self.population`. -/
def rebuiltPopOf (cfg : EngineCfg) (gen : Nat) (s : EngineState) :
    Option (List Architecture) :=
  (fill (cfg.pop_size - (eliteOf cfg gen s.population).length)
    (eliteOf cfg gen s.population) (bufferOf cfg gen s.population)
    (eliteOf cfg gen s.population) s.eRng s.dRng).map (fun t => t.1)

/-- One iteration of the `for gen in range(1, self.generations + 1)` loop:
score every member of `self.population` in place, sort descending, split off
`keep_count` elites, rebuild the paradox buffer from this generation's
eliminated set, refill a local population list to `pop_size`, and update
`best_overall` on strict accuracy improvement only.  Note that the source
never assigns the rebuilt local list back to `self.population`: after the
iteration `self.population` still holds the same members, only their
`elim_score` fields rewritten (`scoredPop`). -/
def genStep (cfg : EngineCfg) (gen : Nat) (s : EngineState) :
    Option EngineState :=
  let elite := eliteOf cfg gen s.population
  let buffer := bufferOf cfg gen s.population
  match fill (cfg.pop_size - elite.length) elite buffer elite s.eRng s.dRng with
  | none => none
  | some t =>
    match maxByAcc t.1 with
    | none => none
    | some current_best =>
      some { population := scoredPop cfg gen s.population,
             paradox_buffer := buffer,
             best_overall := if s.best_overall.accuracy < current_best.accuracy
               then current_best else s.best_overall,
             eRng := t.2.1, dRng := t.2.2 }

/-- `[self._create_random_arch() for _ in range(n)]`, threading both RNGs in
evaluation order. -/
def initPopulation : Nat → RStream → RStream →
    List Architecture × RStream × RStream
  | 0, e, d => ([], e, d)
  | n + 1, e, d =>
    let a := (engineCreateRandomArch e d).1
    let rest := initPopulation n (engineCreateRandomArch e d).2.1
      (engineCreateRandomArch e d).2.2
    (a :: rest.1, rest.2.1, rest.2.2)

/-- The first two lines of `ForgettingEngineNAS.run`: sample the initial
population and set `best_overall = max(self.population, key=...)` (which
raises on an empty population — `none` here). -/
def initState (cfg : EngineCfg) (e d : RStream) : Option EngineState :=
  let pop := (initPopulation cfg.pop_size e d).1
  (maxByAcc pop).map fun b =>
    { population := pop, paradox_buffer := [], best_overall := b,
      eRng := (initPopulation cfg.pop_size e d).2.1,
      dRng := (initPopulation cfg.pop_size e d).2.2 }

/-- Iterate `genStep` for the remaining generations, starting at generation
index `gen`. -/
def runLoop (cfg : EngineCfg) : Nat → Nat → EngineState → Option EngineState
  | 0, _, s => some s
  | n + 1, gen, s =>
    match genStep cfg gen s with
    | none => none
    | some s' => runLoop cfg n (gen + 1) s'

/-- `ForgettingEngineNAS.run`: returns `best_overall` and the metadata
`paradox_count = len(self.paradox_buffer)` after the final generation. -/
def run (cfg : EngineCfg) (e d : RStream) : Option (Architecture × Nat) :=
  match initState cfg e d with
  | none => none
  | some s0 =>
    (runLoop cfg cfg.generations 1 s0).map fun s =>
      (s.best_overall, s.paradox_buffer.length)

/-- Modelled from the spec: the paradox-buffer capacity the spec prescribes,
`round(paradox_rate * pop_size)` with a minimum of 1 (the source truncates
with `int(...)` instead of rounding).  Kept separate for comparison with
`paradoxCap`. -/
def specParadoxCap (cfg : EngineCfg) : Nat :=
  max 1 (round (cfg.paradox_rate * (cfg.pop_size : ℚ))).toNat

/-! ### Concrete fixtures used by witnesses and counterexamples -/

/-- A constant raw-draw stream. -/
def constS (k : Nat) : RStream := ⟨fun _ => k, 0⟩

/-- A single-`CONV3` architecture with accuracy `1/2`. -/
def archW1 : Architecture := { layers := [Op.CONV3], params := 50000, accuracy := 1 / 2 }

/-- A trivial but well-formed configuration: one candidate, nothing forgotten. -/
def cfgW1 : EngineCfg :=
  { target_complexity := 1000000, pop_size := 1, generations := 0,
    forget_rate := 0, paradox_rate := 1 }

/-- A loop state for `cfgW1`. -/
def sW1 : EngineState :=
  { population := [archW1], paradox_buffer := [], best_overall := archW1,
    eRng := constS 0, dRng := constS 0 }

/-- The state `genStep cfgW1 1 sW1` produces: the single candidate rescored
with elimination score `-21/50`, an empty buffer, the incumbent best kept. -/
def sW1' : EngineState :=
  { population := [{ archW1 with elim_score := -21 / 50 }], paradox_buffer := [],
    best_overall := archW1, eRng := constS 0, dRng := constS 0 }

/-- The candidate `run cfgW1 (constS 0) (constS 0)` samples: five `CONV3`
layers, params `250000`, accuracy `347/400`. -/
def archRun0 : Architecture :=
  { layers := [Op.CONV3, Op.CONV3, Op.CONV3, Op.CONV3, Op.CONV3],
    params := 250000, accuracy := 347 / 400 }

/-- The state `initState cfgW1 (constS 0) (constS 0)` produces. -/
def s0W : EngineState :=
  { population := [archRun0], paradox_buffer := [], best_overall := archRun0,
    eRng := ⟨fun _ => 0, 6⟩, dRng := ⟨fun _ => 0, 1⟩ }

/-- A length-4 parent whose `remove` mutation shrinks it to length 3. -/
def parentC6 : Architecture :=
  { layers := [Op.POOL, Op.POOL, Op.POOL, Op.POOL], params := 4000, accuracy := 1 / 2 }

/-- A low-accuracy, low-complexity member of the 6-candidate population below. -/
def archA1 : Architecture := { layers := [Op.DROP], params := 500, accuracy := 1 / 2 }

/-- The second low-accuracy, low-complexity member. -/
def archA2 : Architecture :=
  { layers := [Op.DROP, Op.DROP, Op.DROP], params := 1500, accuracy := 1 / 2 }

/-- The higher-accuracy, high-novelty members. -/
def archB : Architecture :=
  { layers := [Op.CONV3, Op.CONV5, Op.POOL, Op.DROP], params := 151500, accuracy := 7 / 10 }

/-- Configuration with `paradox_rate * pop_size = 3/2`: truncation gives
capacity 1, the spec's rounding gives 2; `keep_count = 4` of 6. -/
def cfgC5 : EngineCfg :=
  { target_complexity := 1000000, pop_size := 6, generations := 1,
    forget_rate := 1 / 3, paradox_rate := 1 / 4 }

/-- Six candidates: both `archA1` and `archA2` end up eliminated and
paradoxical in generation 1. -/
def popC5 : List Architecture :=
  [archB, archB, archB, archB, archA2, archA1]

/-- A configuration the claim calls well-formed (`pop_size > 0`,
`0 ≤ forget_rate < 1`) whose `keep_count` is nevertheless `0`. -/
def cfgC9 : EngineCfg :=
  { target_complexity := 1000000, pop_size := 2, generations := 1,
    forget_rate := 3 / 5, paradox_rate := 1 / 2 }

/-- A loop state for `cfgC9` with the required two-member population. -/
def sC9 : EngineState :=
  { population := [archW1, archW1], paradox_buffer := [], best_overall := archW1,
    eRng := constS 0, dRng := constS 0 }

/-- Apparatus for C3: the Python constructor accepts `pop_size = 0`
unchecked. -/
def cfgPop0 : EngineCfg :=
  { target_complexity := 1000000, pop_size := 0, generations := 100,
    forget_rate := 35 / 100, paradox_rate := 15 / 100 }

/-- A candidate whose `params` equals the 25th-percentile complexity of the
population `[500, 500]` exactly. -/
def archC4 : Architecture := { layers := [Op.DROP], params := 500, accuracy := 0 }

/-- An architecture with an empty encoding. -/
def archEmpty : Architecture := { layers := [], params := 0 }

/-- A single-`CONV3` architecture with no accuracy assigned yet. -/
def archC10 : Architecture := { layers := [Op.CONV3], params := 50000 }

/-! ### Helper lemmas -/

theorem getD_opsList_mem (i : Nat) : opsList.getD i Op.CONV3 ∈ opsList := by
  rcases i with _ | _ | _ | _ | n <;>
    simp [opsList, List.getD_cons_zero, List.getD_cons_succ, List.getD_nil]

theorem drawOps_length (n : Nat) (s : RStream) : (drawOps n s).1.length = n := by
  induction n generalizing s with
  | zero => rfl
  | succ n ih => simp [drawOps, RStream.next, ih]

theorem drawOps_mem (n : Nat) (s : RStream) :
    ∀ t ∈ (drawOps n s).1, t ∈ opsList := by
  induction n generalizing s with
  | zero => intro t ht; simp [drawOps] at ht
  | succ n ih =>
    intro t ht
    simp only [drawOps, RStream.next] at ht
    rcases List.mem_cons.mp ht with h | h
    · exact h ▸ getD_opsList_mem _
    · exact ih _ t h

theorem chooseL_of_ne_nil {α : Type} (l : List α) (s : RStream) (h : l ≠ []) :
    ∃ a, chooseL l s = (some a, ⟨s.vals, s.idx + 1⟩) ∧ a ∈ l := by
  have hlen : 0 < l.length := List.length_pos.mpr h
  have hlt : s.vals s.idx % l.length < l.length := Nat.mod_lt _ hlen
  refine ⟨l[s.vals s.idx % l.length], ?_, List.getElem_mem _⟩
  simp [chooseL, RStream.next, List.getElem?_eq_getElem hlt]

theorem maxByAcc_isSome (l : List Architecture) (h : l ≠ []) :
    ∃ b, maxByAcc l = some b := by
  cases l with
  | nil => exact absurd rfl h
  | cons a rest =>
    simp only [maxByAcc]
    cases maxByAcc rest with
    | none => exact ⟨a, rfl⟩
    | some m => by_cases hc : m.accuracy > a.accuracy <;> simp [hc]

theorem maxByAcc_eq_none (l : List Architecture) (h : maxByAcc l = none) :
    l = [] := by
  cases l with
  | nil => rfl
  | cons a rest =>
    obtain ⟨b, hb⟩ := maxByAcc_isSome (a :: rest) (by simp)
    rw [hb] at h
    cases h

theorem maxByAcc_spec (l : List Architecture) (b : Architecture)
    (h : maxByAcc l = some b) : b ∈ l ∧ ∀ x ∈ l, x.accuracy ≤ b.accuracy := by
  induction l generalizing b with
  | nil => simp [maxByAcc] at h
  | cons a rest ih =>
    rw [maxByAcc] at h
    cases hr : maxByAcc rest with
    | none =>
      rw [hr] at h
      simp only [Option.some.injEq] at h
      subst h
      have hrest : rest = [] := maxByAcc_eq_none rest hr
      subst hrest
      exact ⟨List.mem_cons_self _ _, by intro x hx; simp at hx; simp [hx]⟩
    | some m =>
      rw [hr] at h
      simp only at h
      obtain ⟨hmem, hle⟩ := ih m hr
      by_cases hc : m.accuracy > a.accuracy
      · rw [if_pos hc] at h
        simp only [Option.some.injEq] at h
        subst h
        refine ⟨List.mem_cons_of_mem _ hmem, ?_⟩
        intro x hx
        rcases List.mem_cons.mp hx with hx | hx
        · exact hx ▸ le_of_lt hc
        · exact hle x hx
      · rw [if_neg hc] at h
        simp only [Option.some.injEq] at h
        subst h
        refine ⟨List.mem_cons_self _ _, ?_⟩
        intro x hx
        rcases List.mem_cons.mp hx with hx | hx
        · exact hx ▸ le_refl _
        · exact le_trans (hle x hx) (not_lt.mp hc)

theorem keepCount_le_floor (cfg : EngineCfg) (h1 : cfg.forget_rate ≤ 1) :
    ((keepCount cfg : ℚ) ≤ (cfg.pop_size : ℚ) * (1 - cfg.forget_rate)) ∧
    ((cfg.pop_size : ℚ) * (1 - cfg.forget_rate) < (keepCount cfg : ℚ) + 1) := by
  have hx : (0 : ℚ) ≤ (cfg.pop_size : ℚ) * (1 - cfg.forget_rate) := by
    apply mul_nonneg (by positivity)
    linarith
  have hfl : (0 : ℤ) ≤ ⌊(cfg.pop_size : ℚ) * (1 - cfg.forget_rate)⌋ :=
    Int.floor_nonneg.mpr hx
  have hcast : ((keepCount cfg : ℤ) : ℚ) =
      ((⌊(cfg.pop_size : ℚ) * (1 - cfg.forget_rate)⌋ : ℤ) : ℚ) := by
    rw [keepCount]
    norm_cast
    exact Int.toNat_of_nonneg hfl
  constructor
  · have := Int.floor_le ((cfg.pop_size : ℚ) * (1 - cfg.forget_rate))
    push_cast at hcast ⊢
    linarith
  · have := Int.lt_floor_add_one ((cfg.pop_size : ℚ) * (1 - cfg.forget_rate))
    push_cast at hcast ⊢
    linarith

theorem keepCount_le_pop (cfg : EngineCfg) (h0 : 0 ≤ cfg.forget_rate) :
    keepCount cfg ≤ cfg.pop_size := by
  have hle : (cfg.pop_size : ℚ) * (1 - cfg.forget_rate) ≤ (cfg.pop_size : ℚ) := by
    have : (1 - cfg.forget_rate) ≤ 1 := by linarith
    calc (cfg.pop_size : ℚ) * (1 - cfg.forget_rate) ≤ (cfg.pop_size : ℚ) * 1 :=
          mul_le_mul_of_nonneg_left this (by positivity)
      _ = (cfg.pop_size : ℚ) := mul_one _
  have : ⌊(cfg.pop_size : ℚ) * (1 - cfg.forget_rate)⌋ ≤ (cfg.pop_size : ℤ) := by
    have := Int.floor_le_floor hle
    simpa using this
  rw [keepCount]
  omega

theorem sortedByElim_perm (pop : List Architecture) :
    (sortedByElim pop).Perm pop :=
  List.mergeSort_perm pop _

theorem sortedByElim_length (pop : List Architecture) :
    (sortedByElim pop).length = pop.length :=
  (sortedByElim_perm pop).length_eq

theorem sortedByElim_pairwise (pop : List Architecture) :
    (sortedByElim pop).Pairwise (fun a b => b.elim_score ≤ a.elim_score) := by
  have h := @List.sorted_mergeSort Architecture
    (fun a b : Architecture => decide (b.elim_score ≤ a.elim_score))
    (fun a b c hab hbc => by
      simp only [decide_eq_true_eq] at *
      exact le_trans hbc hab)
    (fun a b => by
      simp only [Bool.or_eq_true, decide_eq_true_eq]
      exact le_total b.elim_score a.elim_score)
    pop
  exact h.imp (by intro a b hab; simpa using hab)

theorem scoredPop_length (cfg : EngineCfg) (gen : Nat) (pop : List Architecture) :
    (scoredPop cfg gen pop).length = pop.length := by
  simp [scoredPop]

theorem eliteOf_length (cfg : EngineCfg) (gen : Nat) (pop : List Architecture)
    (h0 : 0 ≤ cfg.forget_rate) (hlen : pop.length = cfg.pop_size) :
    (eliteOf cfg gen pop).length = keepCount cfg := by
  rw [eliteOf, List.length_take, sortedByElim_length, scoredPop_length, hlen]
  exact Nat.min_eq_left (keepCount_le_pop cfg h0)

theorem eliminatedOf_length (cfg : EngineCfg) (gen : Nat)
    (pop : List Architecture) (hlen : pop.length = cfg.pop_size) :
    (eliminatedOf cfg gen pop).length = cfg.pop_size - keepCount cfg := by
  rw [eliminatedOf, List.length_drop, sortedByElim_length, scoredPop_length, hlen]

theorem fill_of_elite_ne_nil (elite buffer : List Architecture)
    (he : elite ≠ []) :
    ∀ (n : Nat) (pop : List Architecture) (e d : RStream),
      ∃ pop' e' d', fill n elite buffer pop e d = some (pop', e', d') ∧
        pop'.length = pop.length + n := by
  intro n
  induction n with
  | zero => intro pop e d; exact ⟨pop, e, d, rfl, rfl⟩
  | succ n ih =>
    intro pop e d
    by_cases hc : (randomQ e).1 < 1 / 5 ∧ buffer ≠ []
    · obtain ⟨p, hp, hpmem⟩ := chooseL_of_ne_nil buffer (randomQ e).2 hc.2
      have hp1 : (chooseL buffer (randomQ e).2).1 = some p := by rw [hp]
      obtain ⟨pop', e', d', hfill, hlen⟩ :=
        ih (pop ++ [p]) (chooseL buffer (randomQ e).2).2 d
      refine ⟨pop', e', d', ?_, ?_⟩
      · simp only [fill, if_pos hc, hp1]
        exact hfill
      · rw [hlen, List.length_append]
        simp
        omega
    · obtain ⟨parent, hp, hpmem⟩ := chooseL_of_ne_nil elite (randomQ e).2 he
      have hp1 : (chooseL elite (randomQ e).2).1 = some parent := by rw [hp]
      obtain ⟨pop', e', d', hfill, hlen⟩ :=
        ih (pop ++ [(mutate_arch parent (chooseL elite (randomQ e).2).2 d).1])
          (mutate_arch parent (chooseL elite (randomQ e).2).2 d).2.1
          (mutate_arch parent (chooseL elite (randomQ e).2).2 d).2.2
      refine ⟨pop', e', d', ?_, ?_⟩
      · simp only [fill, if_neg hc, hp1]
        exact hfill
      · rw [hlen, List.length_append]
        simp
        omega

theorem engineCreateRandomArch_spec (e d : RStream) :
    5 ≤ (engineCreateRandomArch e d).1.layers.length ∧
    (engineCreateRandomArch e d).1.layers.length ≤ 20 ∧
    (∀ t ∈ (engineCreateRandomArch e d).1.layers, t ∈ opsList) ∧
    (engineCreateRandomArch e d).1.params =
      archParams (engineCreateRandomArch e d).1.layers := by
  have hlay : (engineCreateRandomArch e d).1.layers =
      (drawOps (randintN 5 20 e).1 (randintN 5 20 e).2).1 := rfl
  have hpar : (engineCreateRandomArch e d).1.params =
      archParams (drawOps (randintN 5 20 e).1 (randintN 5 20 e).2).1 := rfl
  rw [hlay, hpar, drawOps_length]
  have hnum : (randintN 5 20 e).1 = 5 + (e.vals e.idx) % 16 := rfl
  refine ⟨?_, ?_, ?_, rfl⟩
  · rw [hnum]; omega
  · rw [hnum]; have := Nat.mod_lt (e.vals e.idx) (show 0 < 16 by omega); omega
  · exact drawOps_mem _ _

theorem domainCreateRandomArch_depth (d : RStream) :
    3 ≤ (domainCreateRandomArch d).1.layers.length ∧
    (domainCreateRandomArch d).1.layers.length ≤ 10 := by
  have hlay : (domainCreateRandomArch d).1.layers =
      (drawOps (randintN 3 10 d).1 (randintN 3 10 d).2).1 := rfl
  rw [hlay, drawOps_length]
  have hnum : (randintN 3 10 d).1 = 3 + (d.vals d.idx) % 8 := rfl
  constructor
  · rw [hnum]; omega
  · rw [hnum]; have := Nat.mod_lt (d.vals d.idx) (show 0 < 8 by omega); omega

theorem initPopulation_length (n : Nat) (e d : RStream) :
    (initPopulation n e d).1.length = n := by
  induction n generalizing e d with
  | zero => rfl
  | succ n ih => simp [initPopulation, ih]

theorem initPopulation_mem (n : Nat) (e d : RStream) :
    ∀ a ∈ (initPopulation n e d).1,
      5 ≤ a.layers.length ∧ a.layers.length ≤ 20 ∧
      (∀ t ∈ a.layers, t ∈ opsList) ∧ a.params = archParams a.layers := by
  induction n generalizing e d with
  | zero => intro a ha; simp [initPopulation] at ha
  | succ n ih =>
    intro a ha
    simp only [initPopulation, List.mem_cons] at ha
    rcases ha with ha | ha
    · exact ha ▸ engineCreateRandomArch_spec e d
    · exact ih _ _ a ha

theorem randrangeN_lt (n : Nat) (s : RStream) (h : 0 < n) :
    (randrangeN n s).1 < n := by
  simp only [randrangeN, RStream.next]
  exact Nat.mod_lt _ h

theorem mutateLayers_length_lt (layers : List Op) (e : RStream)
    (h : (mutateLayers layers e).1.length < layers.length) :
    3 < layers.length ∧ (mutateLayers layers e).1.length + 1 = layers.length := by
  by_cases h0 : (randrangeN 4 e).1 = 0
  · exfalso
    by_cases hg : layers.length > 1
    · have hlen : (mutateLayers layers e).1.length = layers.length := by
        simp only [mutateLayers]
        rw [if_pos h0, if_pos hg]
        simp
      omega
    · have hlen : (mutateLayers layers e).1.length = layers.length := by
        simp only [mutateLayers]
        rw [if_pos h0, if_neg hg]
      omega
  · by_cases h1 : (randrangeN 4 e).1 = 1
    · exfalso
      have hpos := randrangeN_lt (layers.length + 1) (randrangeN 4 e).2 (by omega)
      have hlen : (mutateLayers layers e).1.length = layers.length + 1 := by
        simp only [mutateLayers]
        rw [if_neg h0, if_pos h1]
        simp only [List.length_append, List.length_cons, List.length_take,
          List.length_drop]
        omega
      omega
    · by_cases h2 : (randrangeN 4 e).1 = 2
      · by_cases hg : layers.length > 3
        · have hlt := randrangeN_lt layers.length (randrangeN 4 e).2 (by omega)
          have hlen : (mutateLayers layers e).1.length = layers.length - 1 := by
            simp only [mutateLayers]
            rw [if_neg h0, if_neg h1, if_pos h2, if_pos hg]
            exact List.length_eraseIdx_of_lt hlt
          exact ⟨hg, by omega⟩
        · exfalso
          have hlen : (mutateLayers layers e).1.length = layers.length := by
            simp only [mutateLayers]
            rw [if_neg h0, if_neg h1, if_pos h2, if_neg hg]
          omega
      · exfalso
        have hlen : (mutateLayers layers e).1.length = layers.length := by
          simp only [mutateLayers]
          rw [if_neg h0, if_neg h1, if_neg h2]
          simp
        omega

theorem bufferOf_length_le (cfg : EngineCfg) (gen : Nat)
    (pop : List Architecture) : (bufferOf cfg gen pop).length ≤ paradoxCap cfg := by
  rw [bufferOf]
  exact le_trans (List.length_take_le _ _) (le_refl _)

theorem genStep_some (cfg : EngineCfg) (gen : Nat) (s s' : EngineState)
    (h : genStep cfg gen s = some s') :
    ∃ t, fill (cfg.pop_size - (eliteOf cfg gen s.population).length)
        (eliteOf cfg gen s.population) (bufferOf cfg gen s.population)
        (eliteOf cfg gen s.population) s.eRng s.dRng = some t ∧
      ∃ cb, maxByAcc t.1 = some cb ∧
        s' = { population := scoredPop cfg gen s.population,
               paradox_buffer := bufferOf cfg gen s.population,
               best_overall := if s.best_overall.accuracy < cb.accuracy
                 then cb else s.best_overall,
               eRng := t.2.1, dRng := t.2.2 } := by
  simp only [genStep] at h
  rcases hf : fill (cfg.pop_size - (eliteOf cfg gen s.population).length)
      (eliteOf cfg gen s.population) (bufferOf cfg gen s.population)
      (eliteOf cfg gen s.population) s.eRng s.dRng with _ | t
  · rw [hf] at h
    simp at h
  · rw [hf] at h
    simp only at h
    rcases hm : maxByAcc t.1 with _ | cb
    · rw [hm] at h
      simp at h
    · rw [hm] at h
      simp only [Option.some.injEq] at h
      exact ⟨t, rfl, cb, hm, h.symm⟩

theorem genStep_buffer_eq (cfg : EngineCfg) (gen : Nat) (s s' : EngineState)
    (h : genStep cfg gen s = some s') :
    s'.paradox_buffer = bufferOf cfg gen s.population := by
  obtain ⟨t, _, cb, _, hs⟩ := genStep_some cfg gen s s' h
  rw [hs]

theorem genStep_best_mono (cfg : EngineCfg) (gen : Nat) (s s' : EngineState)
    (h : genStep cfg gen s = some s') :
    s.best_overall.accuracy ≤ s'.best_overall.accuracy ∧
    (s'.best_overall ≠ s.best_overall →
      s.best_overall.accuracy < s'.best_overall.accuracy) := by
  obtain ⟨t, _, cb, _, hs⟩ := genStep_some cfg gen s s' h
  rw [hs]
  by_cases hc : s.best_overall.accuracy < cb.accuracy
  · rw [if_pos hc]
    exact ⟨le_of_lt hc, fun _ => hc⟩
  · rw [if_neg hc]
    exact ⟨le_refl _, fun hne => absurd rfl hne⟩

theorem runLoop_buffer_le (cfg : EngineCfg) :
    ∀ (n gen : Nat) (s s' : EngineState),
      s.paradox_buffer.length ≤ paradoxCap cfg →
      runLoop cfg n gen s = some s' →
      s'.paradox_buffer.length ≤ paradoxCap cfg := by
  intro n
  induction n with
  | zero =>
    intro gen s s' hb h
    simp only [runLoop, Option.some.injEq] at h
    rw [← h]
    exact hb
  | succ n ih =>
    intro gen s s' hb h
    simp only [runLoop] at h
    rcases hg : genStep cfg gen s with _ | s1
    · rw [hg] at h; simp at h
    · rw [hg] at h
      simp only at h
      have h1 : s1.paradox_buffer.length ≤ paradoxCap cfg := by
        rw [genStep_buffer_eq cfg gen s s1 hg]
        exact bufferOf_length_le cfg gen s.population
      exact ih (gen + 1) s1 s' h1 h

theorem runLoop_best_mono (cfg : EngineCfg) :
    ∀ (n gen : Nat) (s s' : EngineState),
      runLoop cfg n gen s = some s' →
      s.best_overall.accuracy ≤ s'.best_overall.accuracy := by
  intro n
  induction n with
  | zero =>
    intro gen s s' h
    simp only [runLoop, Option.some.injEq] at h
    rw [← h]
  | succ n ih =>
    intro gen s s' h
    simp only [runLoop] at h
    rcases hg : genStep cfg gen s with _ | s1
    · rw [hg] at h; simp at h
    · rw [hg] at h
      simp only at h
      exact le_trans (genStep_best_mono cfg gen s s1 hg).1 (ih (gen + 1) s1 s' h)

theorem initState_some (cfg : EngineCfg) (e d : RStream) (s0 : EngineState)
    (h : initState cfg e d = some s0) :
    s0.population = (initPopulation cfg.pop_size e d).1 ∧
    s0.paradox_buffer = [] ∧
    maxByAcc (initPopulation cfg.pop_size e d).1 = some s0.best_overall := by
  simp only [initState] at h
  rcases hm : maxByAcc (initPopulation cfg.pop_size e d).1 with _ | b
  · rw [hm] at h
    simp at h
  · rw [hm] at h
    simp only [Option.map_some', Option.some.injEq] at h
    rw [← h]
    exact ⟨rfl, rfl, hm ▸ rfl⟩

theorem run_paradox_count_le (cfg : EngineCfg) (e d : RStream)
    (b : Architecture) (pc : Nat) (h : run cfg e d = some (b, pc)) :
    pc ≤ paradoxCap cfg := by
  simp only [run] at h
  rcases hi : initState cfg e d with _ | s0
  · rw [hi] at h; simp at h
  · rw [hi] at h
    simp only at h
    rcases hr : runLoop cfg cfg.generations 1 s0 with _ | sf
    · rw [hr] at h; simp at h
    · rw [hr] at h
      simp only [Option.map_some', Option.some.injEq, Prod.mk.injEq] at h
      have hb0 : s0.paradox_buffer.length ≤ paradoxCap cfg := by
        rw [(initState_some cfg e d s0 hi).2.1]
        simp [paradoxCap]
      rw [← h.2]
      exact runLoop_buffer_le cfg cfg.generations 1 s0 sf hb0 hr

/-! ### Claim theorems -/

/-- C1: in every generation step the engine sorts the rescored population by
elimination score in descending order and takes the first `keep_count`
entries as the elite set, where `keep_count = floor(pop_size * (1 -
forget_rate))`; the remaining `pop_size - keep_count` entries form the
eliminated set, and the elite set has exactly `keep_count` members before
rescue/mutation fill-in. -/
theorem claim_C1 (cfg : EngineCfg) (gen : Nat) (pop : List Architecture)
    (hfr0 : 0 ≤ cfg.forget_rate) (hfr1 : cfg.forget_rate ≤ 1)
    (hlen : pop.length = cfg.pop_size) :
    ((keepCount cfg : ℚ) ≤ (cfg.pop_size : ℚ) * (1 - cfg.forget_rate) ∧
      (cfg.pop_size : ℚ) * (1 - cfg.forget_rate) < (keepCount cfg : ℚ) + 1) ∧
    (eliteOf cfg gen pop).length = keepCount cfg ∧
    (eliminatedOf cfg gen pop).length = cfg.pop_size - keepCount cfg ∧
    eliteOf cfg gen pop ++ eliminatedOf cfg gen pop =
      sortedByElim (scoredPop cfg gen pop) ∧
    (sortedByElim (scoredPop cfg gen pop)).Pairwise
      (fun a b => b.elim_score ≤ a.elim_score) ∧
    (sortedByElim (scoredPop cfg gen pop)).Perm (scoredPop cfg gen pop) := by
  refine ⟨keepCount_le_floor cfg hfr1, eliteOf_length cfg gen pop hfr0 hlen,
    eliminatedOf_length cfg gen pop hlen, ?_, sortedByElim_pairwise _,
    sortedByElim_perm _⟩
  rw [eliteOf, eliminatedOf]
  exact List.take_append_drop _ _

/-- C1 witness: the elite/eliminated split at a concrete one-member
population under `cfgW1`. -/
theorem claim_C1_witness :
    ((0 : ℚ) ≤ cfgW1.forget_rate ∧ cfgW1.forget_rate ≤ 1 ∧
      [archW1].length = cfgW1.pop_size) ∧
    ((eliteOf cfgW1 1 [archW1]).length = keepCount cfgW1 ∧
     (eliminatedOf cfgW1 1 [archW1]).length = cfgW1.pop_size - keepCount cfgW1 ∧
     eliteOf cfgW1 1 [archW1] ++ eliminatedOf cfgW1 1 [archW1] =
       sortedByElim (scoredPop cfgW1 1 [archW1])) :=
  ⟨⟨by decide, by decide, rfl⟩,
   (fun h => ⟨h.2.1, h.2.2.1, h.2.2.2.1⟩)
     (claim_C1 cfgW1 1 [archW1] (by decide) (by decide) rfl)⟩

/-- C2: for a fixed candidate-space (domain) stream, engine stream and
hyperparameters, two independent runs return the same `best_overall`
encoding, fitness, complexity, and the same `metadata.paradox_count`; in the
embedding every random draw is explicit state, so the run is a pure function
of the two streams and the configuration. -/
theorem claim_C2 (cfg : EngineCfg) (e₁ e₂ d₁ d₂ : RStream)
    (he : e₁ = e₂) (hd : d₁ = d₂) :
    run cfg e₁ d₁ = run cfg e₂ d₂ ∧
    (run cfg e₁ d₁).map (fun r => r.1.layers) =
      (run cfg e₂ d₂).map (fun r => r.1.layers) ∧
    (run cfg e₁ d₁).map (fun r => r.1.accuracy) =
      (run cfg e₂ d₂).map (fun r => r.1.accuracy) ∧
    (run cfg e₁ d₁).map (fun r => r.1.params) =
      (run cfg e₂ d₂).map (fun r => r.1.params) ∧
    (run cfg e₁ d₁).map (fun r => r.2) = (run cfg e₂ d₂).map (fun r => r.2) := by
  subst he
  subst hd
  exact ⟨rfl, rfl, rfl, rfl, rfl⟩

/-- C2 witness: two runs from the same concrete seed streams coincide. -/
theorem claim_C2_witness :
    constS 0 = constS 0 ∧
    run cfgW1 (constS 0) (constS 0) = run cfgW1 (constS 0) (constS 0) ∧
    (run cfgW1 (constS 0) (constS 0)).map (fun r => r.2) =
      (run cfgW1 (constS 0) (constS 0)).map (fun r => r.2) :=
  ⟨rfl, (claim_C2 cfgW1 (constS 0) (constS 0) (constS 0) (constS 0) rfl rfl).1,
   (claim_C2 cfgW1 (constS 0) (constS 0) (constS 0) (constS 0) rfl rfl).2.2.2.2⟩

/-- C3 (code_bug evidence): the Python constructor performs no validation, so
a `pop_size` of zero is accepted at construction and only fails inside
`run()` (the `max` over the empty initial population raises; here the run
returns `none`), and a `keep_count` of zero (`pop_size = 2`,
`forget_rate = 3/5`) is likewise accepted and crashes inside the generation
loop when `rng.choice` is applied to the empty elite set. -/
theorem claim_C3 :
    run cfgPop0 (constS 0) (constS 0) = none ∧
    keepCount cfgC9 = 0 ∧ genStep cfgC9 1 sC9 = none :=
  ⟨rfl, by with_unfolding_all decide, by with_unfolding_all rfl⟩

/-- C4 counterexample: with population accuracies `[1/2, 1/2]` and
complexities `[500, 500]` the 25th-percentile complexity is exactly `500`; a
candidate with fitness `0` (strictly below the mean) and complexity `500`
(at the percentile) satisfies the claim's "at or below" condition, yet the
code's strict `<` comparison makes `is_paradoxical` return `false`. -/
theorem claim_C4_cex :
    is_paradoxical archC4 [1 / 2, 1 / 2] [500, 500] = false ∧
    archC4.accuracy < listMean [1 / 2, 1 / 2] ∧
    (archC4.params : ℚ) ≤ percentile25 [500, 500] ∧
    ([1 / 2, 1 / 2] : List ℚ) ≠ [] ∧ ([500, 500] : List Nat) ≠ [] := by
  refine ⟨by with_unfolding_all decide, by with_unfolding_all decide,
    by with_unfolding_all decide, by with_unfolding_all decide,
    by with_unfolding_all decide⟩

/-- C4 (amended): `is_paradoxical` returns true iff the population lists are
non-empty, the candidate's fitness is strictly below the mean fitness, and
its complexity is strictly below (not at or below) the 25th-percentile
complexity; on an empty fitness or complexity list it returns false
without computing a mean or percentile. -/
theorem claim_C4 (arch : Architecture) (accs : List ℚ) (sizes : List Nat) :
    (is_paradoxical arch accs sizes = true ↔
      (accs ≠ [] ∧ sizes ≠ [] ∧ arch.accuracy < listMean accs ∧
        (arch.params : ℚ) < percentile25 sizes)) ∧
    (accs = [] ∨ sizes = [] → is_paradoxical arch accs sizes = false) := by
  constructor
  · by_cases h : accs = [] ∨ sizes = []
    · rw [is_paradoxical, if_pos h]
      simp only [Bool.false_eq_true, false_iff]
      intro hc
      rcases h with h | h
      · exact hc.1 h
      · exact hc.2.1 h
    · rw [is_paradoxical, if_neg h]
      push_neg at h
      simp only [decide_eq_true_eq]
      constructor
      · intro hc
        exact ⟨h.1, h.2, hc.1, hc.2⟩
      · intro hc
        exact ⟨hc.2.2.1, hc.2.2.2⟩
  · intro h
    rw [is_paradoxical, if_pos h]

/-- C4 witness: the empty-population guard at a concrete input. -/
theorem claim_C4_witness :
    (([] : List ℚ) = [] ∨ ([500] : List Nat) = []) ∧
    is_paradoxical archC4 [] [500] = false :=
  ⟨Or.inl rfl, (claim_C4 archC4 [] [500]).2 (Or.inl rfl)⟩

/-- C10: `estimate_performance` is not a function of the encoding alone: a
non-empty encoding consumes exactly one draw of the domain stream, and the
same encoding at two different stream states can receive two different
fitness values; the result is always clamped into `[0, 0.98]`, and an empty
encoding evaluates to exactly `0` with the stream left untouched. -/
theorem claim_C10 (arch : Architecture) (s : RStream) :
    (arch.layers = [] → estimate_performance arch s = (0, s)) ∧
    (arch.layers ≠ [] →
      (estimate_performance arch s).2 = ⟨s.vals, s.idx + 1⟩) ∧
    0 ≤ (estimate_performance arch s).1 ∧
    (estimate_performance arch s).1 ≤ 98 / 100 ∧
    (estimate_performance archC10 (constS 0)).1 ≠
      (estimate_performance archC10 (constS 1000)).1 := by
  refine ⟨?_, ?_, ?_, ?_, by with_unfolding_all decide⟩
  · intro he
    rw [estimate_performance, if_pos he]
  · intro hne
    simp only [estimate_performance, if_neg hne]
    rfl
  · by_cases he : arch.layers = []
    · rw [estimate_performance, if_pos he]
    · simp only [estimate_performance, if_neg he]
      exact le_min (by norm_num) (le_max_left 0 _)
  · by_cases he : arch.layers = []
    · rw [estimate_performance, if_pos he]
      norm_num
    · simp only [estimate_performance, if_neg he]
      exact min_le_left _ _

/-- C10 witness: the empty-encoding clause and the one-draw consumption at
concrete inputs. -/
theorem claim_C10_witness :
    (archEmpty.layers = [] ∧
      estimate_performance archEmpty (constS 0) = (0, constS 0)) ∧
    (archC10.layers ≠ [] ∧
      (estimate_performance archC10 (constS 0)).2 =
        ⟨(constS 0).vals, (constS 0).idx + 1⟩) :=
  ⟨⟨rfl, (claim_C10 archEmpty (constS 0)).1 rfl⟩,
   ⟨by decide, (claim_C10 archC10 (constS 0)).2.1 (by decide)⟩⟩

/-- C5 counterexample: with `pop_size = 6`, `paradox_rate = 1/4` the code's
capacity is `max(1, int(1.5)) = 1` while the claim's rounding capacity is
`max(1, round(1.5)) = 2`; generation 1 of `popC5` yields two paradoxical
eliminated candidates, and the buffer keeps only one of them — it is not the
candidate list truncated to the claimed rounding capacity. -/
theorem claim_C5_cex :
    (bufferOf cfgC5 1 popC5).length = 1 ∧
    (paradoxCandidatesOf cfgC5 1 popC5).length = 2 ∧
    specParadoxCap cfgC5 = 2 ∧
    bufferOf cfgC5 1 popC5 ≠
      ((paradoxCandidatesOf cfgC5 1 popC5).mergeSort
        (fun a b => decide (a.params ≤ b.params))).take (specParadoxCap cfgC5) := by
  have h1 : (bufferOf cfgC5 1 popC5).length = 1 := by with_unfolding_all rfl
  have h2 : (paradoxCandidatesOf cfgC5 1 popC5).length = 2 := by
    with_unfolding_all rfl
  have h3 : specParadoxCap cfgC5 = 2 := by with_unfolding_all decide
  refine ⟨h1, h2, h3, ?_⟩
  intro heq
  have hlen : (((paradoxCandidatesOf cfgC5 1 popC5).mergeSort
      (fun a b => decide (a.params ≤ b.params))).take
        (specParadoxCap cfgC5)).length = 2 := by
    rw [List.length_take, List.length_mergeSort, h2, h3]
    rfl
  rw [heq, hlen] at h1
  exact absurd h1 (by decide)

/-- C5 (amended): in every generation the paradox buffer is rebuilt from
scratch (fully replacing the previous buffer) as the paradoxical members of
that generation's eliminated set, sorted ascending by complexity and
truncated to a capacity of `max(1, int(paradox_rate * pop_size))` — the code
truncates rather than rounds; hence the buffer size, including the final
`metadata.paradox_count`, never exceeds that capacity. -/
theorem claim_C5 (cfg : EngineCfg) (gen : Nat) (s s' : EngineState)
    (h : genStep cfg gen s = some s') :
    s'.paradox_buffer = bufferOf cfg gen s.population ∧
    bufferOf cfg gen s.population =
      ((paradoxCandidatesOf cfg gen s.population).mergeSort
        (fun a b => decide (a.params ≤ b.params))).take (paradoxCap cfg) ∧
    s'.paradox_buffer.length ≤ paradoxCap cfg ∧
    (∀ (e d : RStream) (b : Architecture) (pc : Nat),
      run cfg e d = some (b, pc) → pc ≤ paradoxCap cfg) := by
  refine ⟨genStep_buffer_eq cfg gen s s' h, rfl, ?_,
    fun e d b pc hr => run_paradox_count_le cfg e d b pc hr⟩
  rw [genStep_buffer_eq cfg gen s s' h]
  exact bufferOf_length_le cfg gen s.population

/-- C5 witness: the buffer replacement and paradox-count bound at a concrete
one-generation step and a concrete zero-generation run. -/
theorem claim_C5_witness :
    genStep cfgW1 1 sW1 = some sW1' ∧
    sW1'.paradox_buffer = bufferOf cfgW1 1 sW1.population ∧
    run cfgW1 (constS 0) (constS 0) = some (archRun0, 0) ∧
    0 ≤ paradoxCap cfgW1 :=
  ⟨by with_unfolding_all rfl,
   (claim_C5 cfgW1 1 sW1 sW1' (by with_unfolding_all rfl)).1,
   by with_unfolding_all rfl,
   (claim_C5 cfgW1 1 sW1 sW1' (by with_unfolding_all rfl)).2.2.2
     (constS 0) (constS 0) archRun0 0 (by with_unfolding_all rfl)⟩

/-- C6 counterexample: a single `remove` mutation takes the length-4 parent
`parentC6` to a length-3 child, so repeated deletes do go below length 4. -/
theorem claim_C6_cex :
    parentC6.layers.length = 4 ∧
    (mutate_arch parentC6 (constS 2) (constS 0)).1.layers.length = 3 :=
  ⟨rfl, by with_unfolding_all rfl⟩

/-- C6 (amended): a delete (`remove`) mutation is applied only when the
parent encoding's length is greater than 3 and removes exactly one token, so
repeated delete mutations never reduce an encoding below length 3 (not 4): a
mutation shrinks the encoding only if the parent had more than 3 tokens, the
child then has exactly one token fewer, and in particular still at least 3. -/
theorem claim_C6 (parent : Architecture) (e d : RStream)
    (h : (mutate_arch parent e d).1.layers.length < parent.layers.length) :
    3 < parent.layers.length ∧
    (mutate_arch parent e d).1.layers.length + 1 = parent.layers.length ∧
    3 ≤ (mutate_arch parent e d).1.layers.length := by
  by_cases hne : parent.layers = []
  · exfalso
    have hlay : (mutate_arch parent e d).1 = (engineCreateRandomArch e d).1 := by
      rw [mutate_arch, if_pos hne]
    rw [hlay, hne] at h
    simp at h
  · have hlay : (mutate_arch parent e d).1.layers = (mutateLayers parent.layers e).1 := by
      rw [mutate_arch, if_neg hne]
    rw [hlay] at h ⊢
    obtain ⟨h3, heq⟩ := mutateLayers_length_lt parent.layers e h
    exact ⟨h3, heq, by omega⟩

/-- C6 witness: the shrink-by-one characterization applied at the concrete
length-4 parent and remove-selecting stream. -/
theorem claim_C6_witness :
    ((mutate_arch parentC6 (constS 2) (constS 0)).1.layers.length <
      parentC6.layers.length) ∧
    (3 < parentC6.layers.length ∧
     (mutate_arch parentC6 (constS 2) (constS 0)).1.layers.length + 1 =
       parentC6.layers.length ∧
     3 ≤ (mutate_arch parentC6 (constS 2) (constS 0)).1.layers.length) :=
  ⟨by with_unfolding_all decide,
   claim_C6 parentC6 (constS 2) (constS 0) (by with_unfolding_all decide)⟩

/-- C7 counterexample: the initial population is sampled by the engine's own
`_create_random_arch` (depth uniform in `[5, 20]`), not by the candidate
space's sampler (depth uniform in `[3, 10]`): a stream selecting the top of
the engine range yields an initial candidate of depth 20, which the space's
configured depth range can never produce (20 is not at most 10). -/
theorem claim_C7_cex :
    ((initPopulation 1 (constS 15) (constS 0)).1.map fun a => a.layers.length) =
      [20] ∧ ¬ (20 ≤ 10) :=
  ⟨by with_unfolding_all rfl, by decide⟩

/-- C7 (amended): at the start of a run the engine samples its `pop_size`
initial candidates via its own sampler — depth uniform in `[5, 20]` from the
engine RNG, tokens uniform over the op vocabulary, complexity from the cost
table — and sets `best_overall` to the maximum-fitness candidate of this
initial population; the candidate space's own sampler instead draws depth
uniformly from `[3, 10]`. -/
theorem claim_C7 (cfg : EngineCfg) (e d : RStream) (s0 : EngineState)
    (h : initState cfg e d = some s0) :
    s0.population = (initPopulation cfg.pop_size e d).1 ∧
    s0.population.length = cfg.pop_size ∧
    maxByAcc s0.population = some s0.best_overall ∧
    (∀ a ∈ s0.population, 5 ≤ a.layers.length ∧ a.layers.length ≤ 20 ∧
      (∀ t ∈ a.layers, t ∈ opsList) ∧ a.params = archParams a.layers) ∧
    (∀ a ∈ s0.population, a.accuracy ≤ s0.best_overall.accuracy) ∧
    (∀ dS : RStream, 3 ≤ (domainCreateRandomArch dS).1.layers.length ∧
      (domainCreateRandomArch dS).1.layers.length ≤ 10) := by
  obtain ⟨hpop, hbuf, hmax⟩ := initState_some cfg e d s0 h
  refine ⟨hpop, ?_, ?_, ?_, ?_, fun dS => domainCreateRandomArch_depth dS⟩
  · rw [hpop, initPopulation_length]
  · rw [hpop]
    exact hmax
  · rw [hpop]
    exact initPopulation_mem cfg.pop_size e d
  · rw [hpop]
    intro a ha
    exact (maxByAcc_spec _ _ hmax).2 a ha

/-- C7 witness: the init characterization at a concrete one-candidate run. -/
theorem claim_C7_witness :
    initState cfgW1 (constS 0) (constS 0) = some s0W ∧
    (s0W.population.length = cfgW1.pop_size ∧
     maxByAcc s0W.population = some s0W.best_overall) :=
  ⟨by with_unfolding_all rfl,
   (claim_C7 cfgW1 (constS 0) (constS 0) s0W (by with_unfolding_all rfl)).2.1,
   (claim_C7 cfgW1 (constS 0) (constS 0) s0W (by with_unfolding_all rfl)).2.2.1⟩

/-- C8: `best_overall.fitness` is non-decreasing across generation steps (and
across any number of loop iterations), and `best_overall` is replaced only on
strict fitness improvement: a candidate whose fitness ties the incumbent's
does not replace it, preserving the earliest-found optimum. -/
theorem claim_C8 (cfg : EngineCfg) (gen : Nat) (s s' : EngineState)
    (h : genStep cfg gen s = some s') :
    s.best_overall.accuracy ≤ s'.best_overall.accuracy ∧
    (s'.best_overall ≠ s.best_overall →
      s.best_overall.accuracy < s'.best_overall.accuracy) ∧
    (s'.best_overall.accuracy = s.best_overall.accuracy →
      s'.best_overall = s.best_overall) ∧
    (∀ (n g : Nat) (t t' : EngineState), runLoop cfg n g t = some t' →
      t.best_overall.accuracy ≤ t'.best_overall.accuracy) := by
  obtain ⟨hmono, hstrict⟩ := genStep_best_mono cfg gen s s' h
  refine ⟨hmono, hstrict, ?_, fun n g t t' ht => runLoop_best_mono cfg n g t t' ht⟩
  intro heq
  by_contra hne
  have hlt := hstrict hne
  rw [heq] at hlt
  exact lt_irrefl _ hlt

/-- C8 witness: the monotone-best facts at a concrete generation step. -/
theorem claim_C8_witness :
    genStep cfgW1 1 sW1 = some sW1' ∧
    sW1.best_overall.accuracy ≤ sW1'.best_overall.accuracy :=
  ⟨by with_unfolding_all rfl,
   (claim_C8 cfgW1 1 sW1 sW1' (by with_unfolding_all rfl)).1⟩

/-- C9 counterexample: `pop_size = 2`, `forget_rate = 3/5` satisfies the
claim's well-formedness (`pop_size > 0`, `0 ≤ forget_rate < 1`), yet
`keep_count = int(2 * 0.4) = 0` leaves the elite empty and the refill loop
crashes on `rng.choice` of the empty elite (modelled as `none`): the
generation step produces no `pop_size`-member population at all. -/
theorem claim_C9_cex :
    0 < cfgC9.pop_size ∧ 0 ≤ cfgC9.forget_rate ∧ cfgC9.forget_rate < 1 ∧
    sC9.population.length = cfgC9.pop_size ∧
    genStep cfgC9 1 sC9 = none :=
  ⟨by decide, by with_unfolding_all decide, by with_unfolding_all decide,
   rfl, by with_unfolding_all rfl⟩

/-- C9 (amended): for every configuration with `pop_size > 0`,
`0 ≤ forget_rate < 1` AND a non-zero `keep_count` (non-empty elite set),
every generation step succeeds: the local population list is rebuilt from
the elite set plus rescued or mutated fill-ins to exactly `pop_size`
members, and the engine's stored population also still has exactly
`pop_size` members after the step. -/
theorem claim_C9 (cfg : EngineCfg) (gen : Nat) (s : EngineState)
    (hps : 0 < cfg.pop_size) (hk : 1 ≤ keepCount cfg)
    (hfr0 : 0 ≤ cfg.forget_rate) (_hfr1 : cfg.forget_rate < 1)
    (hlen : s.population.length = cfg.pop_size) :
    ((rebuiltPopOf cfg gen s).map List.length) = some cfg.pop_size ∧
    ((genStep cfg gen s).map fun t => t.population.length) = some cfg.pop_size := by
  have hel : (eliteOf cfg gen s.population).length = keepCount cfg :=
    eliteOf_length cfg gen s.population hfr0 hlen
  have hne : eliteOf cfg gen s.population ≠ [] := by
    intro hcon
    rw [hcon] at hel
    simp only [List.length_nil] at hel
    omega
  obtain ⟨pop', e', d', hfill, hflen⟩ :=
    fill_of_elite_ne_nil (eliteOf cfg gen s.population)
      (bufferOf cfg gen s.population) hne
      (cfg.pop_size - (eliteOf cfg gen s.population).length)
      (eliteOf cfg gen s.population) s.eRng s.dRng
  have hplen : pop'.length = cfg.pop_size := by
    rw [hflen, hel]
    have := keepCount_le_pop cfg hfr0
    omega
  have hpne : pop' ≠ [] := by
    intro hcon
    rw [hcon] at hplen
    simp only [List.length_nil] at hplen
    omega
  obtain ⟨cb, hcb⟩ := maxByAcc_isSome pop' hpne
  constructor
  · rw [rebuiltPopOf, hfill]
    simp [hplen]
  · simp only [genStep]
    rw [hfill]
    simp only
    rw [hcb]
    simp [scoredPop_length, hlen]

/-- C9 witness: the population-size invariant at a concrete well-formed
configuration with a non-empty elite. -/
theorem claim_C9_witness :
    (0 < cfgW1.pop_size ∧ 1 ≤ keepCount cfgW1) ∧
    ((rebuiltPopOf cfgW1 1 sW1).map List.length) = some cfgW1.pop_size ∧
    ((genStep cfgW1 1 sW1).map fun t => t.population.length) =
      some cfgW1.pop_size :=
  ⟨⟨by decide, by with_unfolding_all decide⟩,
   (claim_C9 cfgW1 1 sW1 (by decide) (by with_unfolding_all decide)
     (by with_unfolding_all decide) (by with_unfolding_all decide) rfl).1,
   (claim_C9 cfgW1 1 sW1 (by decide) (by with_unfolding_all decide)
     (by with_unfolding_all decide) (by with_unfolding_all decide) rfl).2⟩
